import Mathlib

/-!
# Verification of the composition-validation core of `agentskills`

Shallow embedding of the validation model of the repository: the JSON-Schema
based assignability and contract checks of `docs/spec/VALIDATION.md`, the
level/cycle/version rules of the composability specification, the validity
computation of the skill validator, and the TypeScript `compose` / `parallel`
combinators of `src/composition/compose.ts` with the error model of
`src/types/skill.ts`.
-/

namespace AgentSkills

/-! ## Schema model

`docs/spec/VALIDATION.md` manipulates JSON-Schema fragments as Python dicts and
reads only the keys `type`, `properties`, `required` and `items`
(`schema.get("type")`, `schema.get("properties", {})`, `schema.get("required", [])`,
`schema.get("items", {})`).  We embed exactly that view: an absent `type` key
(the `any` tag of the schema model in the spec) is `none`, an absent `items`
key is `none` (read back as the empty dict), `properties` is an association
list, `required` a list of field names. -/

inductive Jschema : Type where
  | mk : Option String → List (String × Jschema) → List String → Option Jschema → Jschema

/-- `schema.get("type")` -/
def Jschema.type : Jschema → Option String
  | .mk t _ _ _ => t

/-- `schema.get("properties", {})` -/
def Jschema.properties : Jschema → List (String × Jschema)
  | .mk _ p _ _ => p

/-- `schema.get("required", [])` -/
def Jschema.required : Jschema → List String
  | .mk _ _ r _ => r

/-- `schema.get("items")`, `none` when the key is absent -/
def Jschema.items : Jschema → Option Jschema
  | .mk _ _ _ i => i

/-- The empty dict `{}` used as default by `schema.get("items", {})`. -/
def emptySchema : Jschema := .mk none [] [] none

/-- A primitive schema `{"type": tag}`. -/
def prim (tag : String) : Jschema := .mk (some tag) [] [] none

/-- The `any` schema: a dict without a `"type"` key. -/
def anySchema : Jschema := .mk none [] [] none

/-- `{"type": "array", "items": s}` -/
def arr (s : Jschema) : Jschema := .mk (some "array") [] [] (some s)

/-- `{"type": "object", "properties": props, "required": req}` -/
def obj (props : List (String × Jschema)) (req : List String) : Jschema :=
  .mk (some "object") props req none

theorem sizeOf_lookup {l : List (String × Jschema)} {f : String} {v : Jschema}
    (h : l.lookup f = some v) : sizeOf v < sizeOf l := by
  induction l with
  | nil => simp [List.lookup] at h
  | cons a l ih =>
    rw [List.lookup] at h
    by_cases hf : f == a.1
    · simp only [hf] at h
      cases h
      cases a with
      | mk k w => simp; omega
    · simp only [Bool.not_eq_true] at hf
      simp only [hf] at h
      have := ih h
      cases a with
      | mk k w => simp; omega

mutual

/-- `is_type_assignable` from `docs/spec/VALIDATION.md` §2.2: exact tag match
(recursing into array items and object fields), the `integer → number`
widening, and no other conversion. -/
def is_type_assignable (source target : Jschema) : Bool :=
  match source, target with
  | .mk st sp _ si, .mk tt tp tr ti =>
    if st = tt then
      -- exact match; check nested constraints for array/object
      if st = some "array" then
        assignable_items si ti
      else if st = some "object" then
        check_object_assignability sp tp tr
      else
        true
    else if st = some "integer" ∧ tt = some "number" then
      -- widening: integer → number
      true
    else
      -- no other implicit conversions
      false
termination_by sizeOf source + sizeOf target
decreasing_by all_goals (simp_wf; omega)

/-- The recursive call `is_type_assignable(source.get("items", {}), target.get("items", {}))`
of the source, with the two defaulted-`{}` cases evaluated in place (an empty
dict is assignable exactly to a schema without a `"type"` key); see
`assignable_items_spec` below. -/
def assignable_items : Option Jschema → Option Jschema → Bool
  | some s, some t => is_type_assignable s t
  | some s, none => decide (s.type = none)
  | none, some t => decide (t.type = none)
  | none, none => true
termination_by a b => sizeOf a + sizeOf b
decreasing_by all_goals (simp_wf; omega)

/-- Modelled from the spec: `check_object_assignability` is called by
`is_type_assignable` but defined nowhere in the repository.  Rule 4 of the
spec's assignability engine: `object` with fields `Fs` is assignable to
`object` with required fields `Ft` iff every required field name in `Ft`
exists in `Fs` and each corresponding field type is assignable (recursively);
extra fields in `Fs` are ignored.  A required name with no entry among the
target's own properties imposes only presence in the source. -/
def check_object_assignability (sprops tprops : List (String × Jschema)) :
    List String → Bool
  | [] => true
  | f :: rest =>
    check_object_field sprops tprops f && check_object_assignability sprops tprops rest
termination_by r => sizeOf sprops + sizeOf tprops + sizeOf r
decreasing_by all_goals simp_wf <;> omega

/-- One required field of the target: it must exist in the source and its
source type must be assignable to the corresponding target type. -/
def check_object_field (sprops tprops : List (String × Jschema)) (f : String) : Bool :=
  match h1 : sprops.lookup f with
  | none => false
  | some sv =>
    match h2 : tprops.lookup f with
    | none => true
    | some tv => is_type_assignable sv tv
termination_by sizeOf sprops + sizeOf tprops
decreasing_by
  simp_wf
  have h1' := sizeOf_lookup h1
  have h2' := sizeOf_lookup h2
  omega

end

/-- The two inlined cases of `assignable_items` agree with the source's
`is_type_assignable(source.get("items", {}), target.get("items", {}))`. -/
theorem assignable_items_spec (a b : Option Jschema) :
    assignable_items a b = is_type_assignable (a.getD emptySchema) (b.getD emptySchema) := by
  cases a with
  | none =>
    cases b with
    | none =>
      simp [assignable_items, is_type_assignable, emptySchema, Option.getD]
    | some t =>
      cases t with
      | mk tt tp tr ti =>
        simp only [assignable_items, Option.getD, emptySchema, is_type_assignable,
          Jschema.type]
        by_cases h : tt = none
        · subst h; simp
        · rw [if_neg (by simpa using (Ne.symm h))]
          simp [h]
  | some s =>
    cases b with
    | none =>
      cases s with
      | mk st sp sr si =>
        simp only [assignable_items, Option.getD, emptySchema, is_type_assignable,
          Jschema.type]
        by_cases h : st = none
        · subst h; simp
        · rw [if_neg (by simpa using h)]
          simp [h]
    | some t => simp [assignable_items, Option.getD]

example : is_type_assignable (prim "string") (prim "string") = true := by
  simp [is_type_assignable, prim]

example : is_type_assignable (prim "integer") (prim "number") = true := by
  simp [is_type_assignable, prim]

example : is_type_assignable (prim "number") (prim "integer") = false := by
  simp [is_type_assignable, prim]

example : is_type_assignable anySchema (prim "string") = false := by
  simp [is_type_assignable, prim, anySchema]

example : is_type_assignable (arr (prim "integer")) (arr (prim "number")) = true := by
  simp [is_type_assignable, assignable_items, prim, arr]

example :
    is_type_assignable (obj [("f", prim "string")] [])
      (obj [("f", prim "string")] ["f"]) = true := by
  simp [is_type_assignable, check_object_assignability, check_object_field,
    obj, prim, List.lookup]

example :
    is_type_assignable (obj [] [])
      (obj [("f", prim "string")] ["f"]) = false := by
  simp [is_type_assignable, check_object_assignability, check_object_field,
    obj, prim, List.lookup]

/-! ## Contract compatibility checker

`check_contract_compatibility` from `docs/spec/VALIDATION.md` §2.1: for every
required consumer field, emit `MISSING_REQUIRED_FIELD` when the producer lacks
the property, else `TYPE_MISMATCH` when the producer's property is not
assignable; all errors are accumulated, nothing short-circuits.  Python's
`consumer_props[field]` raises `KeyError` when a required field has no entry
in the consumer's own `properties`; the embedding returns `none` there. -/

structure ContractError where
  errType : String
  field : String
  producerSchema : Jschema
  consumerSchema : Jschema

/-- The body of the `for field in consumer_required` loop, one field at a
time; `consumer_required` is `set(consumer_input.get("required", []))`, so the
caller passes the deduplicated `required` list. -/
def checkFields (producerOutput consumerInput : Jschema) :
    List String → Option (List ContractError)
  | [] => some []
  | f :: rest =>
    match producerOutput.properties.lookup f with
    | none =>
      -- MISSING_REQUIRED_FIELD, then `continue`
      (checkFields producerOutput consumerInput rest).map
        (⟨"MISSING_REQUIRED_FIELD", f, producerOutput, consumerInput⟩ :: ·)
    | some producerType =>
      match consumerInput.properties.lookup f with
      | none => none    -- Python `consumer_props[field]` raises KeyError
      | some consumerType =>
        if is_type_assignable producerType consumerType then
          checkFields producerOutput consumerInput rest
        else
          (checkFields producerOutput consumerInput rest).map
            (⟨"TYPE_MISMATCH", f, producerType, consumerType⟩ :: ·)

def check_contract_compatibility (producerOutput consumerInput : Jschema) :
    Option (List ContractError) :=
  checkFields producerOutput consumerInput consumerInput.required.dedup

/-- `CompatibilityResult(compatible=len(errors) == 0, errors=errors)`. -/
structure CompatibilityResult where
  compatible : Bool
  errors : List ContractError

def checkCompatibility (producerOutput consumerInput : Jschema) :
    Option CompatibilityResult :=
  (check_contract_compatibility producerOutput consumerInput).map
    (fun errs => ⟨errs.isEmpty, errs⟩)

/-- The verdict the loop body reaches for a single required field. -/
def fieldVerdict (producerOutput consumerInput : Jschema) (f : String) :
    Option ContractError :=
  match producerOutput.properties.lookup f with
  | none => some ⟨"MISSING_REQUIRED_FIELD", f, producerOutput, consumerInput⟩
  | some producerType =>
    match consumerInput.properties.lookup f with
    | none => none
    | some consumerType =>
      if is_type_assignable producerType consumerType then none
      else some ⟨"TYPE_MISMATCH", f, producerType, consumerType⟩

theorem fieldVerdict_field {p c : Jschema} {f : String} {e : ContractError}
    (h : fieldVerdict p c f = some e) : e.field = f := by
  unfold fieldVerdict at h
  split at h
  · cases h; rfl
  · split at h
    · cases h
    · split at h
      · cases h
      · cases h; rfl

theorem checkFields_eq (p c : Jschema) (req : List String)
    (hwf : ∀ f ∈ req, (c.properties.lookup f).isSome) :
    checkFields p c req = some (req.filterMap (fieldVerdict p c)) := by
  induction req with
  | nil => rfl
  | cons f rest ih =>
    have hf : (c.properties.lookup f).isSome := hwf f (List.mem_cons_self f rest)
    have hrest : ∀ g ∈ rest, (c.properties.lookup g).isSome :=
      fun g hg => hwf g (List.mem_cons_of_mem f hg)
    have ih' := ih hrest
    rw [checkFields, List.filterMap]
    cases hp : p.properties.lookup f with
    | none =>
      simp only [fieldVerdict, hp, ih']
      rfl
    | some pt =>
      cases hc : c.properties.lookup f with
      | none => rw [hc] at hf; simp at hf
      | some ct =>
        by_cases ha : is_type_assignable pt ct = true
        · simp only [fieldVerdict, hp, hc, if_pos ha, ih']
        · simp only [fieldVerdict, hp, hc, if_neg ha, ih']
          rfl

/-- Counting matches of `pred` in `l.filterMap v` when only the verdict of the
distinguished element `f` can match `pred`. -/
theorem countP_filterMap_single {α β : Type} (v : α → Option β) (pred : β → Bool)
    (l : List α) (hnd : l.Nodup) (f : α) (hf : f ∈ l)
    (hother : ∀ g ∈ l, g ≠ f → ∀ y, v g = some y → pred y = false) :
    (l.filterMap v).countP pred =
      (match v f with
       | some y => if pred y then 1 else 0
       | none => 0) := by
  induction l with
  | nil => cases hf
  | cons a l ih =>
    rw [List.filterMap]
    rcases List.mem_cons.mp hf with hfa | hfl
    · subst hfa
      have hnotl : f ∉ l := (List.nodup_cons.mp hnd).1
      have hzero : (l.filterMap v).countP pred = 0 := by
        rw [List.countP_eq_zero]
        intro y hy
        rcases List.mem_filterMap.mp hy with ⟨g, hg, hvg⟩
        have hgf : g ≠ f := fun hh => hnotl (hh ▸ hg)
        have hfalse := hother g (List.mem_cons_of_mem f hg) hgf y hvg
        simp [hfalse]
      cases hv : v f with
      | none => simpa [hv] using hzero
      | some y =>
        by_cases hp : pred y = true
        · simp [hv, List.countP_cons, hp, hzero]
        · simp [hv, List.countP_cons, hp, hzero]
    · have haf : a ≠ f := by
        intro hh
        exact (List.nodup_cons.mp hnd).1 (hh ▸ hfl)
      have hrec := ih (List.nodup_cons.mp hnd).2 hfl
        (fun g hg hgf y hvg => hother g (List.mem_cons_of_mem a hg) hgf y hvg)
      cases hv : v a with
      | none => simpa [hv] using hrec
      | some y =>
        have hpy : pred y = false := hother a (List.mem_cons_self a l) haf y hv
        simp [hv, List.countP_cons, hpy, hrec]

/-! ## Level rule engine

`validate_level_rules` from the composability specification §1.3: L1 may not
compose (`E010`), L2/L3 must compose (`E013`), unresolved targets are `E004`,
an L2 target that is not L1 is `E014` (`INVALID_L2_COMPOSE`), and an L3 target
that is itself L3 is `E015` (`INVALID_L3_COMPOSE`). -/

structure SkillDef where
  name : String
  level : Nat
  composes : List String
deriving DecidableEq

/-- A registry is a dict from skill name to record; `registry.get(name)`. -/
abbrev Registry : Type := List (String × SkillDef)

def regGet (registry : Registry) (n : String) : Option SkillDef :=
  List.lookup n registry

structure LevelError where
  code : String
  skillName : String
  target : Option String
deriving DecidableEq

def validate_level_rules (skill : SkillDef) (registry : Registry) : List LevelError :=
  if skill.level = 1 then
    if skill.composes ≠ [] then [⟨"E010", skill.name, none⟩] else []
  else if skill.level = 2 ∨ skill.level = 3 then
    (if skill.composes = [] then [⟨"E013", skill.name, none⟩] else []) ++
    skill.composes.flatMap (fun composedName =>
      match regGet registry composedName with
      | none => [⟨"E004", skill.name, some composedName⟩]
      | some composed =>
        (if skill.level = 2 ∧ composed.level ≠ 1 then
          [⟨"E014", skill.name, some composedName⟩] else []) ++
        (if skill.level = 3 ∧ composed.level = 3 then
          [⟨"E015", skill.name, some composedName⟩] else []))
  else []

/-! ## Dependency graph and cycle detection

`detect_cycles` of the composability specification §2.2 is
`list(nx.simple_cycles(graph))`.  We model the NetworkX library call by a
fuelled DFS that enumerates the elementary cycles of a finite edge list (a
self-loop is the one-node cycle `[v]`); downstream, `validate_composition_graph`
in `docs/spec/VALIDATION.md` §2.3 only reads whether the returned list is
empty and its first element.  Each elementary cycle may be listed once per
starting vertex, which is invisible to that consumer. -/

structure DiGraph where
  nodes : List String
  edges : List (String × String)

def successors (g : DiGraph) (v : String) : List String :=
  (g.edges.filter (fun e => e.1 == v)).map (fun e => e.2)

/-- Simple paths from `start` back to `start`; `path` is the reversed list of
visited nodes, `fuel` bounds the depth by the node count. -/
def cyclesFrom (g : DiGraph) (start : String) : String → List String → Nat → List (List String)
  | _, _, 0 => []
  | cur, path, fuel + 1 =>
    (successors g cur).flatMap (fun w =>
      (if w = start then [path.reverse] else []) ++
      (if w ∈ path ∨ w = start then [] else cyclesFrom g start w (w :: path) fuel))

def detect_cycles (g : DiGraph) : List (List String) :=
  g.nodes.dedup.flatMap (fun v => cyclesFrom g v v [v] g.nodes.length)

structure CompositionDiag where
  errType : String
  skillsInvolved : List String
deriving DecidableEq

/-- The cycle branch of `validate_composition_graph` (`docs/spec/VALIDATION.md`
§2.3): `if cycles := detect_cycles(graph): errors.append(CompositionError(
error_type="CIRCULAR_DEPENDENCY", ..., skills_involved=cycles[0])); return errors`. -/
def cycle_errors (g : DiGraph) : List CompositionDiag :=
  match detect_cycles g with
  | [] => []
  | cycle0 :: _ => [⟨"CIRCULAR_DEPENDENCY", cycle0⟩]

/-- Modelled from the spec: `build_dependency_graph` is called by
`validate_composition_graph` but defined nowhere in the repository.  Spec
§4.4: nodes are the skill names of the registry, edges are
`(composed, composer)` for every entry in every record's `composes` list,
and unknown composed names are dropped from the graph. -/
def build_dependency_graph (registry : Registry) : DiGraph :=
  { nodes := registry.map (fun e => e.1)
    edges := registry.flatMap (fun e =>
      (e.2.composes.filter (fun cn => (regGet registry cn).isSome)).map
        (fun cn => (cn, e.1))) }

/-! ## Version constraint resolver -/

structure Version where
  major : Nat
  minor : Nat
  patch : Nat
deriving DecidableEq

/-- `a <= b` under standard semantic-version precedence (major.minor.patch). -/
def versionLe (a b : Version) : Bool :=
  decide (a.major < b.major ∨
    (a.major = b.major ∧ (a.minor < b.minor ∨
      (a.minor = b.minor ∧ a.patch ≤ b.patch))))

/-- Modelled from the spec: the Version Constraint Resolver itself has no
implementation in the repository, only the constraint table of the
composability specification §4.2 (`^1.2.0` — compatible with 1.x: 1.2.0,
1.9.0, not 2.0.0).  Caret `^X.Y.Z` permits any version with the same major
component that is `>= X.Y.Z`. -/
def caretSatisfies (c v : Version) : Bool :=
  v.major == c.major && versionLe c v

/-- A violated constraint yields `VERSION_MISMATCH`. -/
def caretCheck (c v : Version) : List String :=
  if caretSatisfies c v then [] else ["VERSION_MISMATCH"]

/-! ## Report validity

The validity computation of the skill validator:
`valid = not any(i.severity == Severity.ERROR for i in issues)`. -/

inductive Severity : Type where
  | ERROR
  | WARNING
  | INFO
deriving DecidableEq

structure ValidationIssue where
  code : String
  message : String
  severity : Severity
deriving DecidableEq

structure ValidationResult where
  valid : Bool
  issues : List ValidationIssue

def validationValid (issues : List ValidationIssue) : Bool :=
  ! issues.any (fun i => i.severity == .ERROR)

def mkValidationResult (issues : List ValidationIssue) : ValidationResult :=
  ⟨validationValid issues, issues⟩

/-! ## The TypeScript composition runtime

`src/types/skill.ts` and `src/composition/compose.ts`: a skill is a record of
metadata plus an async `execute`; rejection is modelled by `Except JsError`.
`SkillExecutionError(skillName, cause)` is the error wrapper of
`src/types/skill.ts`. -/

inductive SkillOperation : Type where
  | READ
  | WRITE
  | TRANSFORM
deriving DecidableEq

inductive JsError : Type where
  | plain : String → JsError
  | skillExecution : String → JsError → JsError
deriving DecidableEq

def JsError.skillName : JsError → Option String
  | .plain _ => none
  | .skillExecution n _ => some n

def JsError.cause : JsError → Option JsError
  | .plain _ => none
  | .skillExecution _ c => some c

structure Skill (α β : Type) where
  name : String
  version : Option String := none
  level : Option Nat := none
  operation : Option SkillOperation := none
  description : Option String := none
  execute : α → Except JsError β

/-- `compose` from `src/composition/compose.ts`: run `skill1`, feed its result
to `skill2`, and wrap any rejection of either in a `SkillExecutionError`
carrying the composite name.  The returned object literal sets only `name`
and `execute`; every other property (in particular `operation`) is absent,
i.e. `none`. -/
def compose {α β γ : Type} (skill1 : Skill α β) (skill2 : Skill β γ) : Skill α γ :=
  let name := skill1.name ++ "→" ++ skill2.name
  { name := name
    execute := fun input =>
      match (do
        let intermediate ← skill1.execute input
        skill2.execute intermediate : Except JsError γ) with
      | .ok v => .ok v
      | .error e => .error (.skillExecution name e) }

/-- A JavaScript object as an association list (unique keys in a real JS
object; first occurrence governs lookups). -/
abbrev JsObj (V : Type) : Type := List (String × V)

/-- The object spread `{ ...r1, ...r2 }`: the keys of `r1` in order, each with
`r2`'s value when `r2` also defines the key, followed by the keys of `r2` not
present in `r1`. -/
def jsSpread {V : Type} (r1 r2 : JsObj V) : JsObj V :=
  r1.map (fun p => (p.1, ((List.lookup p.1 r2).getD p.2))) ++
    r2.filter (fun p => ! r1.any (fun q => q.1 == p.1))

/-- `parallel` from `src/composition/compose.ts`: both skills receive the same
input (`Promise.all([skill1.execute(input), skill2.execute(input)])`) and the
outputs are merged with object spread.  The two output types are flattened to
a common association-list type so the spread merge is expressible. -/
def parallel {α : Type} {V : Type} (skill1 skill2 : Skill α (JsObj V)) :
    Skill α (JsObj V) :=
  { name := "parallel(" ++ skill1.name ++ ", " ++ skill2.name ++ ")"
    execute := fun input => do
      let r1 ← skill1.execute input
      let r2 ← skill2.execute input
      return jsSpread r1 r2 }

/-! ## Concrete skills used by the tests around `compose` -/

/-- `fetch-user` of the composition test suite: a `READ` skill. -/
def fetchUser : Skill Nat Nat :=
  { name := "fetch-user", operation := some .READ, execute := fun n => .ok n }

/-- `enrich-user` of the composition test suite: a `READ` skill. -/
def enrichUser : Skill Nat Nat :=
  { name := "enrich-user", operation := some .READ, execute := fun n => .ok (n + 1) }

/-! ## Theorems -/

/-- C3: the object literal returned by `compose` sets only `name` and
`execute`: the composite's `operation` is always absent (`undefined`), never
the maximum of the composed operations under TRANSFORM < READ < WRITE.  In
particular, composing the two READ skills `fetch-user` and `enrich-user`
yields a composite whose `operation` is `none`, not `READ`, contradicting the
repository's own operation-propagation tests. -/
theorem compose_never_sets_operation :
    (∀ (α β γ : Type) (s1 : Skill α β) (s2 : Skill β γ),
      (compose s1 s2).operation = none) ∧
    fetchUser.operation = some .READ ∧
    enrichUser.operation = some .READ ∧
    (compose fetchUser enrichUser).operation = none ∧
    (compose fetchUser enrichUser).name = "fetch-user" ++ "→" ++ "enrich-user" :=
  ⟨fun _ _ _ _ _ => rfl, rfl, rfl, rfl, rfl⟩

/-- C5 counterexample: `is_type_assignable` has no wildcard rule, so the `any`
schema (no `type` tag) is neither assignable to nor assignable from the
`string` schema, refuting that `any` is assignable to/from everything. -/
theorem any_string_not_assignable :
    is_type_assignable anySchema (prim "string") = false ∧
    is_type_assignable (prim "string") anySchema = false := by
  constructor <;> simp [is_type_assignable, anySchema, prim, Jschema.type]

/-- C5 amended: the `any` schema is assignable to, and from, exactly the
schemas that also carry no `type` tag; `is_type_assignable` treats `any` by
its exact-tag rule only, with no wildcard behaviour in either direction. -/
theorem any_assignable_iff_any (S : Jschema) :
    (is_type_assignable anySchema S = true ↔ S.type = none) ∧
    (is_type_assignable S anySchema = true ↔ S.type = none) := by
  cases S with
  | mk tt tp tr ti =>
    cases tt with
    | none => simp [is_type_assignable, anySchema, Jschema.type]
    | some t => simp [is_type_assignable, anySchema, Jschema.type]

/-- C7: the caret constraint `^X.Y.Z` accepts an available version `V` exactly
when `V` has the same major component as `X` and `V >= X.Y.Z` under
major.minor.patch precedence; in particular `^1.2.0` is satisfied by `1.9.0`,
while `2.0.0` yields a `VERSION_MISMATCH`. -/
theorem caret_constraint_spec :
    (∀ c v : Version, caretSatisfies c v = true ↔
      (v.major = c.major ∧ versionLe c v = true)) ∧
    (∀ a b : Version, versionLe a b = true ↔
      (a.major < b.major ∨ (a.major = b.major ∧ (a.minor < b.minor ∨
        (a.minor = b.minor ∧ a.patch ≤ b.patch))))) ∧
    caretCheck ⟨1, 2, 0⟩ ⟨1, 9, 0⟩ = [] ∧
    caretCheck ⟨1, 2, 0⟩ ⟨2, 0, 0⟩ = ["VERSION_MISMATCH"] := by
  refine ⟨?_, ?_, by decide, by decide⟩
  · intro c v
    simp [caretSatisfies]
  · intro a b
    simp [versionLe]

/-- C8: a validation report is invalid iff its issue list contains at least
one ERROR-severity diagnostic; appending a WARNING-severity diagnostic never
changes the computed validity. -/
theorem valid_iff_no_error (issues : List ValidationIssue) :
    ((mkValidationResult issues).valid = false ↔
      ∃ i ∈ issues, i.severity = .ERROR) ∧
    (∀ w : ValidationIssue, w.severity = .WARNING →
      (mkValidationResult (issues ++ [w])).valid =
        (mkValidationResult issues).valid) := by
  constructor
  · simp [mkValidationResult, validationValid, List.any_eq_true]
  · intro w hw
    simp [mkValidationResult, validationValid, hw]

/-- C8 witness: one DIAMOND_WARNING-style warning on an otherwise clean report
leaves `valid` unchanged (true). -/
theorem valid_iff_no_error_witness :
    (⟨"E016", "DIAMOND_WARNING", .WARNING⟩ : ValidationIssue).severity = .WARNING ∧
    (mkValidationResult ([] ++ [⟨"E016", "DIAMOND_WARNING", .WARNING⟩])).valid =
      (mkValidationResult []).valid :=
  ⟨rfl, (valid_iff_no_error []).2 ⟨"E016", "DIAMOND_WARNING", .WARNING⟩ rfl⟩

theorem bind_ok_eq {ε α β : Type} (a : α) (f : α → Except ε β) :
    (Except.ok a >>= f : Except ε β) = f a := rfl

theorem bind_error_eq {ε α β : Type} (e : ε) (f : α → Except ε β) :
    ((Except.error e : Except ε α) >>= f) = (Except.error e : Except ε β) := rfl

/-- C9: when both executes succeed, the composite returns `skill2` applied to
`skill1`'s output; when either rejects, the composite rejects with a
`SkillExecutionError` whose skill name is the concatenated composite name
`s1.name→s2.name` — not the name of the individual skill that failed — and
whose cause is the original error. -/
theorem compose_execute_spec {α β γ : Type} (s1 : Skill α β) (s2 : Skill β γ)
    (x : α) :
    (∀ (b : β) (c : γ), s1.execute x = .ok b → s2.execute b = .ok c →
      (compose s1 s2).execute x = .ok c) ∧
    (∀ e : JsError, s1.execute x = .error e →
      (compose s1 s2).execute x =
        .error (.skillExecution (s1.name ++ "→" ++ s2.name) e)) ∧
    (∀ (b : β) (e : JsError), s1.execute x = .ok b → s2.execute b = .error e →
      (compose s1 s2).execute x =
        .error (.skillExecution (s1.name ++ "→" ++ s2.name) e)) := by
  refine ⟨?_, ?_, ?_⟩
  · intro b c h1 h2
    simp [compose, h1, h2, bind_ok_eq]
  · intro e h1
    simp [compose, h1, bind_error_eq]
  · intro b e h1 h2
    simp [compose, h1, h2, bind_ok_eq]

/-- Sequential skill used by witnesses: succeeds with `n + 1`. -/
def stepSkill : Skill Nat Nat := { name := "a", execute := fun n => .ok (n + 1) }

/-- Failing skill used by witnesses: always rejects. -/
def boomSkill : Skill Nat Nat := { name := "b", execute := fun _ => .error (.plain "boom") }

/-- C9 witness: composing a succeeding skill with a failing one rejects with
the composite name `a→b` and the original cause. -/
theorem compose_execute_spec_witness :
    stepSkill.execute 0 = .ok 1 ∧
    boomSkill.execute 1 = .error (.plain "boom") ∧
    (compose stepSkill boomSkill).execute 0 =
      .error (.skillExecution ("a" ++ "→" ++ "b") (.plain "boom")) :=
  ⟨rfl, rfl, (compose_execute_spec stepSkill boomSkill 0).2.2 1 (.plain "boom") rfl rfl⟩

theorem lookup_append {V : Type} (k : String) (a b : List (String × V)) :
    List.lookup k (a ++ b) = (List.lookup k a).or (List.lookup k b) := by
  induction a with
  | nil => simp [List.lookup]
  | cons p rest ih =>
    rw [List.cons_append, List.lookup, List.lookup]
    by_cases hk : k == p.1
    · simp [hk]
    · simp only [Bool.not_eq_true] at hk
      simp [hk, ih]

theorem lookup_updated_keys {V : Type} (k : String) (r1 r2 : List (String × V)) :
    List.lookup k (r1.map (fun p => (p.1, ((List.lookup p.1 r2).getD p.2)))) =
      (List.lookup k r1).map (fun v => (List.lookup k r2).getD v) := by
  induction r1 with
  | nil => simp [List.lookup]
  | cons p rest ih =>
    rw [List.map_cons, List.lookup, List.lookup]
    by_cases hk : (k == p.1) = true
    · have hk' : k = p.1 := by simpa using hk
      simp [hk, hk']
    · simp only [Bool.not_eq_true] at hk
      simp [hk, ih]

theorem lookup_filtered_new_keys {V : Type} (k : String) (r1 r2 : List (String × V)) :
    List.lookup k (r2.filter (fun p => ! r1.any (fun q => q.1 == p.1))) =
      (if r1.any (fun q => q.1 == k) = true then none else List.lookup k r2) := by
  induction r2 with
  | nil => simp [List.lookup]
  | cons p rest ih =>
    rw [List.filter_cons]
    by_cases hk : (k == p.1) = true
    · have hk' : k = p.1 := by simpa using hk
      have lcons : ∀ tl : List (String × V), List.lookup k (p :: tl) = some p.2 := by
        intro tl
        rw [List.lookup]
        simp [hk]
      by_cases hany : r1.any (fun q => q.1 == k) = true
      · have hanyp : r1.any (fun q => q.1 == p.1) = true := hk' ▸ hany
        simp only [hanyp, Bool.not_true, Bool.false_eq_true, if_false]
        rw [ih, if_pos hany, if_pos hany]
      · have hany' : r1.any (fun q => q.1 == k) = false := by
          simp only [Bool.not_eq_true] at hany
          exact hany
        have hanyp : r1.any (fun q => q.1 == p.1) = false := hk' ▸ hany'
        simp only [hanyp, Bool.not_false, if_true]
        rw [if_neg hany, lcons, lcons]
    · have hk0 : (k == p.1) = false := by simpa using hk
      have lcons : ∀ tl : List (String × V), List.lookup k (p :: tl) = List.lookup k tl := by
        intro tl
        rw [List.lookup]
        simp [hk0]
      by_cases hanyp : r1.any (fun q => q.1 == p.1) = true
      · simp only [hanyp, Bool.not_true, Bool.false_eq_true, if_false]
        rw [ih]
        by_cases hany : r1.any (fun q => q.1 == k) = true
        · rw [if_pos hany, if_pos hany]
        · rw [if_neg hany, if_neg hany, lcons]
      · have hanyp0 : r1.any (fun q => q.1 == p.1) = false := by
          simp only [Bool.not_eq_true] at hanyp
          exact hanyp
        simp only [hanyp0, Bool.not_false, if_true]
        rw [lcons, lcons, ih]

theorem lookup_some_any {V : Type} (k : String) (l : List (String × V)) {v : V}
    (h : List.lookup k l = some v) : l.any (fun q => q.1 == k) = true := by
  induction l with
  | nil => simp [List.lookup] at h
  | cons p rest ih =>
    rw [List.lookup] at h
    by_cases hk : (k == p.1) = true
    · have hk' : k = p.1 := by simpa using hk
      simp [List.any_cons, hk']
    · have hk0 : (k == p.1) = false := by simpa using hk
      rw [hk0] at h
      simp [List.any_cons, ih h]

theorem lookup_none_any {V : Type} (k : String) (l : List (String × V))
    (h : List.lookup k l = none) : l.any (fun q => q.1 == k) = false := by
  induction l with
  | nil => rfl
  | cons p rest ih =>
    rw [List.lookup] at h
    by_cases hk : (k == p.1) = true
    · rw [hk] at h; cases h
    · have hk0 : (k == p.1) = false := by simpa using hk
      rw [hk0] at h
      have hkp : (p.1 == k) = false := by
        cases hpk : p.1 == k
        · rfl
        · have hp1 : p.1 = k := by simpa using hpk
          rw [hp1, beq_self_eq_true] at hk0
          cases hk0
      simp [List.any_cons, hkp, ih h]

/-- The object spread `{ ...r1, ...r2 }` looked up at any key yields `r2`'s
value when `r2` defines the key and `r1`'s value otherwise. -/
theorem lookup_jsSpread {V : Type} (r1 r2 : JsObj V) (k : String) :
    List.lookup k (jsSpread r1 r2) = (List.lookup k r2).or (List.lookup k r1) := by
  rw [jsSpread, lookup_append, lookup_updated_keys, lookup_filtered_new_keys]
  cases h1 : List.lookup k r1 with
  | none =>
    rw [lookup_none_any k r1 h1]
    simp
  | some v1 =>
    rw [if_pos (lookup_some_any k r1 h1)]
    cases h2 : List.lookup k r2 with
    | none => simp
    | some v2 => simp

/-- C10: `parallel` feeds the same input to both skills and, when both
succeed, returns the shallow spread-merge of the two outputs; at every key
defined by both outputs the second skill's value overwrites the first's. -/
theorem parallel_merges {α V : Type} (s1 s2 : Skill α (JsObj V)) (x : α)
    (r1 r2 : JsObj V) (h1 : s1.execute x = .ok r1) (h2 : s2.execute x = .ok r2) :
    (parallel s1 s2).execute x = .ok (jsSpread r1 r2) ∧
    (∀ k, List.lookup k (jsSpread r1 r2) =
      (List.lookup k r2).or (List.lookup k r1)) ∧
    (∀ (k : String) (v1 v2 : V), List.lookup k r1 = some v1 →
      List.lookup k r2 = some v2 →
      List.lookup k (jsSpread r1 r2) = some v2) := by
  refine ⟨?_, fun k => lookup_jsSpread r1 r2 k, ?_⟩
  · simp [parallel, h1, h2, bind_ok_eq]
  · intro k v1 v2 hk1 hk2
    rw [lookup_jsSpread, hk1, hk2]
    rfl

/-- First parallel branch used by the witness. -/
def leftObjSkill : Skill Nat (JsObj Nat) :=
  { name := "left", execute := fun _ => .ok [("x", 1), ("y", 2)] }

/-- Second parallel branch used by the witness. -/
def rightObjSkill : Skill Nat (JsObj Nat) :=
  { name := "right", execute := fun _ => .ok [("y", 9), ("z", 3)] }

/-- C10 witness: merging `{x:1, y:2}` and `{y:9, z:3}` keeps `y := 9` from the
second skill. -/
theorem parallel_merges_witness :
    leftObjSkill.execute 0 = .ok [("x", 1), ("y", 2)] ∧
    rightObjSkill.execute 0 = .ok [("y", 9), ("z", 3)] ∧
    List.lookup "y" ([("x", 1), ("y", 2)] : JsObj Nat) = some 2 ∧
    List.lookup "y" ([("y", 9), ("z", 3)] : JsObj Nat) = some 9 ∧
    (parallel leftObjSkill rightObjSkill).execute 0 =
      .ok (jsSpread [("x", 1), ("y", 2)] [("y", 9), ("z", 3)]) ∧
    List.lookup "y" (jsSpread ([("x", 1), ("y", 2)] : JsObj Nat) [("y", 9), ("z", 3)]) =
      some 9 :=
  ⟨rfl, rfl, rfl, rfl,
    (parallel_merges leftObjSkill rightObjSkill 0 _ _ rfl rfl).1,
    (parallel_merges leftObjSkill rightObjSkill 0 _ _ rfl rfl).2.2 "y" 2 9 rfl rfl⟩

/-- Helper: a successful `registry.get` means the pair is in the registry. -/
theorem mem_of_regGet {registry : Registry} {n : String} {s : SkillDef}
    (h : regGet registry n = some s) : (n, s) ∈ registry := by
  unfold regGet at h
  induction registry with
  | nil => cases h
  | cons p rest ih =>
    cases p with
    | mk k v =>
      rw [List.lookup] at h
      by_cases hk : (n == k) = true
      · simp only [hk] at h
        cases h
        have hnk : n = k := by simpa using hk
        rw [hnk]
        exact List.mem_cons_self _ _
      · simp only [Bool.not_eq_true] at hk
        simp only [hk] at h
        exact List.mem_cons_of_mem _ (ih h)

/-- The self-composing level-3 record of the cycle counterexample. -/
def cycSkill : SkillDef := ⟨"a", 3, ["a"]⟩

def cycReg : Registry := [("a", cycSkill)]

/-- C2 counterexample: a level-3 record listing only itself in `composes`
yields one `CIRCULAR_DEPENDENCY` diagnostic, not zero: `detect_cycles` models
`nx.simple_cycles` and has no level-based self-edge exemption. -/
theorem l3_self_cycle_reported :
    cycle_errors (build_dependency_graph cycReg) =
      [⟨"CIRCULAR_DEPENDENCY", ["a"]⟩] := by decide

/-- C2 amended: cycle detection reports a self-edge like any other cycle,
whatever the level of the composing record: any record that lists itself in
`composes` makes the composition-graph validation emit exactly one
`CIRCULAR_DEPENDENCY` diagnostic.  No exemption exists for level 3 (or any
level): the level field is never consulted. -/
theorem self_compose_always_cyclic (registry : Registry) (n : String)
    (s : SkillDef) (hget : regGet registry n = some s) (hself : n ∈ s.composes) :
    (cycle_errors (build_dependency_graph registry)).countP
      (fun d => d.errType == "CIRCULAR_DEPENDENCY") = 1 := by
  have hmem : (n, s) ∈ registry := mem_of_regGet hget
  have hedge : (n, n) ∈ (build_dependency_graph registry).edges := by
    apply List.mem_flatMap.mpr
    refine ⟨(n, s), hmem, ?_⟩
    apply List.mem_map.mpr
    refine ⟨n, ?_, rfl⟩
    apply List.mem_filter.mpr
    refine ⟨hself, ?_⟩
    rw [hget]
    rfl
  have hnode : n ∈ (build_dependency_graph registry).nodes :=
    List.mem_map.mpr ⟨(n, s), hmem, rfl⟩
  have hcyc : [n] ∈ detect_cycles (build_dependency_graph registry) := by
    apply List.mem_flatMap.mpr
    refine ⟨n, List.mem_dedup.mpr hnode, ?_⟩
    obtain ⟨m, hm⟩ : ∃ m, (build_dependency_graph registry).nodes.length = m + 1 := by
      cases hl : (build_dependency_graph registry).nodes.length with
      | zero => exact absurd (List.length_eq_zero.mp hl ▸ hnode) (List.not_mem_nil n)
      | succ m => exact ⟨m, rfl⟩
    rw [hm, cyclesFrom]
    apply List.mem_flatMap.mpr
    refine ⟨n, ?_, ?_⟩
    · unfold successors
      apply List.mem_map.mpr
      refine ⟨(n, n), List.mem_filter.mpr ⟨hedge, by simp⟩, rfl⟩
    · apply List.mem_append.mpr
      left
      rw [if_pos rfl]
      simp
  have hne : detect_cycles (build_dependency_graph registry) ≠ [] :=
    List.ne_nil_of_mem hcyc
  unfold cycle_errors
  cases hdc : detect_cycles (build_dependency_graph registry) with
  | nil => exact absurd hdc hne
  | cons c0 tl => simp [List.countP_cons]

/-- C2 amendment witness: the pure self-recursion registry satisfies the
hypotheses and receives exactly one `CIRCULAR_DEPENDENCY`. -/
theorem self_compose_always_cyclic_witness :
    regGet cycReg "a" = some cycSkill ∧ "a" ∈ cycSkill.composes ∧
    (cycle_errors (build_dependency_graph cycReg)).countP
      (fun d => d.errType == "CIRCULAR_DEPENDENCY") = 1 :=
  ⟨by decide, by decide,
    self_compose_always_cyclic cycReg "a" cycSkill (by decide) (by decide)⟩

/-- The self-composing level-3 record of the level-rule counterexample. -/
def wSkill : SkillDef := ⟨"w", 3, ["w"]⟩

def wReg : Registry := [("w", wSkill)]

/-- C1 counterexample: a level-3 record whose `composes` lists a level-3
target (itself) does receive a level-rule diagnostic: `validate_level_rules`
emits `E015` (`INVALID_L3_COMPOSE`) for every L3→L3 edge, including
self-composition. -/
theorem l3_compose_l3_gets_E015 :
    validate_level_rules wSkill wReg = [⟨"E015", "w", some "w"⟩] := by decide

/-- C1 amended: for every registry, a level-3 record receives `E015`
(`INVALID_L3_COMPOSE`) precisely for each composed target that resolves to a
level-3 record (itself included) and no `INVALID_L2_COMPOSE` diagnostic; a
level-2 record receives `E014` (`INVALID_L2_COMPOSE`) precisely for each
composed target that resolves to a non-level-1 record, and no `E015`. -/
theorem level_rules_spec (registry : Registry) (s : SkillDef) (cn : String)
    (c : SkillDef) (hmem : cn ∈ s.composes) (hget : regGet registry cn = some c) :
    (s.level = 3 →
      (((⟨"E015", s.name, some cn⟩ : LevelError) ∈ validate_level_rules s registry)
        ↔ c.level = 3) ∧
      ((⟨"E014", s.name, some cn⟩ : LevelError) ∉ validate_level_rules s registry)) ∧
    (s.level = 2 →
      (((⟨"E014", s.name, some cn⟩ : LevelError) ∈ validate_level_rules s registry)
        ↔ c.level ≠ 1) ∧
      ((⟨"E015", s.name, some cn⟩ : LevelError) ∉ validate_level_rules s registry)) := by
  have hne : s.composes ≠ [] := List.ne_nil_of_mem hmem
  constructor
  · intro h3
    have hrw : validate_level_rules s registry =
        s.composes.flatMap (fun composedName =>
          match regGet registry composedName with
          | none => [⟨"E004", s.name, some composedName⟩]
          | some composed =>
            (if s.level = 2 ∧ composed.level ≠ 1 then
              [⟨"E014", s.name, some composedName⟩] else []) ++
            (if s.level = 3 ∧ composed.level = 3 then
              [⟨"E015", s.name, some composedName⟩] else [])) := by
      unfold validate_level_rules
      rw [if_neg (by omega : ¬ s.level = 1),
        if_pos (by omega : s.level = 2 ∨ s.level = 3), if_neg hne,
        List.nil_append]
    rw [hrw]
    constructor
    · constructor
      · intro hin
        obtain ⟨a, ha, hfa⟩ := List.mem_flatMap.mp hin
        cases hga : regGet registry a with
        | none =>
          rw [hga] at hfa
          simp at hfa
        | some ca =>
          rw [hga] at hfa
          rcases List.mem_append.mp hfa with h14 | h15
          · by_cases hc : s.level = 2 ∧ ca.level ≠ 1
            · rw [if_pos hc] at h14
              simp at h14
            · rw [if_neg hc] at h14
              cases h14
          · by_cases hc : s.level = 3 ∧ ca.level = 3
            · rw [if_pos hc] at h15
              have := List.mem_singleton.mp h15
              have hacn : cn = a := by
                simpa using congrArg LevelError.target this
              rw [hacn] at hget
              rw [hga] at hget
              cases hget
              exact hc.2
            · rw [if_neg hc] at h15
              cases h15
      · intro hc3
        apply List.mem_flatMap.mpr
        refine ⟨cn, hmem, ?_⟩
        rw [hget]
        apply List.mem_append.mpr
        right
        rw [if_pos ⟨h3, hc3⟩]
        exact List.mem_singleton.mpr rfl
    · intro hin
      obtain ⟨a, ha, hfa⟩ := List.mem_flatMap.mp hin
      cases hga : regGet registry a with
      | none =>
        rw [hga] at hfa
        simp at hfa
      | some ca =>
        rw [hga] at hfa
        rcases List.mem_append.mp hfa with h14 | h15
        · by_cases hc : s.level = 2 ∧ ca.level ≠ 1
          · omega
          · rw [if_neg hc] at h14
            cases h14
        · by_cases hc : s.level = 3 ∧ ca.level = 3
          · rw [if_pos hc] at h15
            simp at h15
          · rw [if_neg hc] at h15
            cases h15
  · intro h2
    have hrw : validate_level_rules s registry =
        s.composes.flatMap (fun composedName =>
          match regGet registry composedName with
          | none => [⟨"E004", s.name, some composedName⟩]
          | some composed =>
            (if s.level = 2 ∧ composed.level ≠ 1 then
              [⟨"E014", s.name, some composedName⟩] else []) ++
            (if s.level = 3 ∧ composed.level = 3 then
              [⟨"E015", s.name, some composedName⟩] else [])) := by
      unfold validate_level_rules
      rw [if_neg (by omega : ¬ s.level = 1),
        if_pos (by omega : s.level = 2 ∨ s.level = 3), if_neg hne,
        List.nil_append]
    rw [hrw]
    constructor
    · constructor
      · intro hin
        obtain ⟨a, ha, hfa⟩ := List.mem_flatMap.mp hin
        cases hga : regGet registry a with
        | none =>
          rw [hga] at hfa
          simp at hfa
        | some ca =>
          rw [hga] at hfa
          rcases List.mem_append.mp hfa with h14 | h15
          · by_cases hc : s.level = 2 ∧ ca.level ≠ 1
            · rw [if_pos hc] at h14
              have := List.mem_singleton.mp h14
              have hacn : cn = a := by
                simpa using congrArg LevelError.target this
              rw [hacn] at hget
              rw [hga] at hget
              cases hget
              exact hc.2
            · rw [if_neg hc] at h14
              cases h14
          · by_cases hc : s.level = 3 ∧ ca.level = 3
            · omega
            · rw [if_neg hc] at h15
              cases h15
      · intro hcne1
        apply List.mem_flatMap.mpr
        refine ⟨cn, hmem, ?_⟩
        rw [hget]
        apply List.mem_append.mpr
        left
        rw [if_pos ⟨h2, hcne1⟩]
        exact List.mem_singleton.mpr rfl
    · intro hin
      obtain ⟨a, ha, hfa⟩ := List.mem_flatMap.mp hin
      cases hga : regGet registry a with
      | none =>
        rw [hga] at hfa
        simp at hfa
      | some ca =>
        rw [hga] at hfa
        rcases List.mem_append.mp hfa with h14 | h15
        · by_cases hc : s.level = 2 ∧ ca.level ≠ 1
          · rw [if_pos hc] at h14
            simp at h14
          · rw [if_neg hc] at h14
            cases h14
        · by_cases hc : s.level = 3 ∧ ca.level = 3
          · omega
          · rw [if_neg hc] at h15
            cases h15

/-- The mixed registry used by the level-rule witness: one atomic skill, one
composite over it, one workflow composing the composite and itself. -/
def mixReg : Registry :=
  [("a1", ⟨"a1", 1, []⟩), ("c2", ⟨"c2", 2, ["a1"]⟩),
   ("w", ⟨"w", 3, ["c2", "w"]⟩)]

/-- C1 amendment witness: in the mixed registry, the workflow `w` (level 3)
receives `E015` for its level-3 target `w`. -/
theorem level_rules_spec_witness :
    ("w" ∈ (⟨"w", 3, ["c2", "w"]⟩ : SkillDef).composes) ∧
    regGet mixReg "w" = some ⟨"w", 3, ["c2", "w"]⟩ ∧
    (⟨"E015", "w", some "w"⟩ : LevelError) ∈
      validate_level_rules ⟨"w", 3, ["c2", "w"]⟩ mixReg :=
  ⟨by decide, by decide,
    ((level_rules_spec mixReg ⟨"w", 3, ["c2", "w"]⟩ "w" ⟨"w", 3, ["c2", "w"]⟩
      (by decide) (by decide)).1 rfl).1.mpr rfl⟩

/-- C4: when every required consumer field has an entry among the consumer's
own properties (so the Python loop raises no `KeyError`),
`check_contract_compatibility` returns the full list of violations found in
one pass: exactly one `MISSING_REQUIRED_FIELD` per absent required field,
exactly one `TYPE_MISMATCH` per present-but-unassignable required field, no
diagnostic at all for a satisfied field, and every diagnostic concerns a
required field — a field that is optional in the consumer input is never
checked for presence. -/
theorem contract_checker_enumerates (p c : Jschema)
    (hwf : ∀ f ∈ c.required, (c.properties.lookup f).isSome = true) :
    ∃ errs, check_contract_compatibility p c = some errs ∧
      (∀ e ∈ errs, e.field ∈ c.required) ∧
      (∀ f ∈ c.required, p.properties.lookup f = none →
        errs.countP
          (fun e => e.errType == "MISSING_REQUIRED_FIELD" && e.field == f) = 1 ∧
        errs.countP (fun e => e.errType == "TYPE_MISMATCH" && e.field == f) = 0) ∧
      (∀ f pt ct, f ∈ c.required → p.properties.lookup f = some pt →
        c.properties.lookup f = some ct → is_type_assignable pt ct = false →
        errs.countP (fun e => e.errType == "TYPE_MISMATCH" && e.field == f) = 1 ∧
        errs.countP
          (fun e => e.errType == "MISSING_REQUIRED_FIELD" && e.field == f) = 0) ∧
      (∀ f pt ct, p.properties.lookup f = some pt →
        c.properties.lookup f = some ct → is_type_assignable pt ct = true →
        errs.countP (fun e => e.field == f) = 0) := by
  have hwf' : ∀ f ∈ c.required.dedup, (c.properties.lookup f).isSome = true :=
    fun f hf => hwf f (List.mem_dedup.mp hf)
  have heq : check_contract_compatibility p c =
      some (c.required.dedup.filterMap (fieldVerdict p c)) :=
    checkFields_eq p c c.required.dedup hwf'
  refine ⟨c.required.dedup.filterMap (fieldVerdict p c), heq, ?_, ?_, ?_, ?_⟩
  · intro e he
    obtain ⟨g, hg, hvg⟩ := List.mem_filterMap.mp he
    rw [fieldVerdict_field hvg]
    exact List.mem_dedup.mp hg
  · intro f hf hnone
    have hfd : f ∈ c.required.dedup := List.mem_dedup.mpr hf
    constructor
    · rw [countP_filterMap_single (fieldVerdict p c) _ _ (List.nodup_dedup _) f hfd
        (fun g _ hgf y hvg => by
          have hyg := fieldVerdict_field hvg
          have : (y.field == f) = false := by
            rw [hyg]
            exact beq_eq_false_iff_ne.mpr hgf
          simp [this])]
      simp [fieldVerdict, hnone]
    · rw [countP_filterMap_single (fieldVerdict p c) _ _ (List.nodup_dedup _) f hfd
        (fun g _ hgf y hvg => by
          have hyg := fieldVerdict_field hvg
          have : (y.field == f) = false := by
            rw [hyg]
            exact beq_eq_false_iff_ne.mpr hgf
          simp [this])]
      simp [fieldVerdict, hnone]
  · intro f pt ct hf hpt hct hbad
    have hfd : f ∈ c.required.dedup := List.mem_dedup.mpr hf
    constructor
    · rw [countP_filterMap_single (fieldVerdict p c) _ _ (List.nodup_dedup _) f hfd
        (fun g _ hgf y hvg => by
          have hyg := fieldVerdict_field hvg
          have : (y.field == f) = false := by
            rw [hyg]
            exact beq_eq_false_iff_ne.mpr hgf
          simp [this])]
      simp [fieldVerdict, hpt, hct, hbad]
    · rw [countP_filterMap_single (fieldVerdict p c) _ _ (List.nodup_dedup _) f hfd
        (fun g _ hgf y hvg => by
          have hyg := fieldVerdict_field hvg
          have : (y.field == f) = false := by
            rw [hyg]
            exact beq_eq_false_iff_ne.mpr hgf
          simp [this])]
      simp [fieldVerdict, hpt, hct, hbad]
  · intro f pt ct hpt hct hgood
    rw [List.countP_eq_zero]
    intro e he
    obtain ⟨g, hg, hvg⟩ := List.mem_filterMap.mp he
    have hyg := fieldVerdict_field hvg
    by_cases hgf : g = f
    · rw [hgf] at hvg
      simp only [fieldVerdict, hpt, hct] at hvg
      rw [if_pos hgood] at hvg
      cases hvg
    · have : (e.field == f) = false := by
        rw [hyg]
        exact beq_eq_false_iff_ne.mpr hgf
      simp [this]

/-- Producer output schema of the contract-checker witness. -/
def prodSchema : Jschema :=
  .mk (some "object")
    [("a", prim "string"), ("extra", prim "number"), ("t", prim "string")] [] none

/-- Consumer input schema of the contract-checker witness: `a` is satisfied,
`missing1` is absent from the producer, `t` is present but unassignable, and
`opt` is optional. -/
def consSchema : Jschema :=
  .mk (some "object")
    [("a", prim "string"), ("missing1", prim "string"), ("t", prim "integer"),
     ("opt", prim "boolean")]
    ["a", "missing1", "t"] none

/-- C4 witness: on the concrete schema pair, the checker reports the missing
field and the mismatched field exactly once each, and nothing about the
satisfied or the optional field. -/
theorem contract_checker_enumerates_witness :
    (∀ f ∈ consSchema.required, (consSchema.properties.lookup f).isSome = true) ∧
    (∃ errs, check_contract_compatibility prodSchema consSchema = some errs ∧
      errs.countP
        (fun e => e.errType == "MISSING_REQUIRED_FIELD" && e.field == "missing1") = 1 ∧
      errs.countP (fun e => e.errType == "TYPE_MISMATCH" && e.field == "t") = 1 ∧
      errs.countP (fun e => e.field == "a") = 0 ∧
      errs.countP (fun e => e.field == "opt") = 0) := by
  refine ⟨by decide, ?_⟩
  obtain ⟨errs, heq, hreq, hmiss, hmism, hok⟩ :=
    contract_checker_enumerates prodSchema consSchema (by decide)
  refine ⟨errs, heq, ?_, ?_, ?_, ?_⟩
  · exact (hmiss "missing1" (by decide) rfl).1
  · exact (hmism "t" (prim "string") (prim "integer") (by decide) rfl rfl
      (by simp [is_type_assignable, prim])).1
  · exact hok "a" (prim "string") (prim "string") rfl rfl
      (by simp [is_type_assignable, prim])
  · rw [List.countP_eq_zero]
    intro e he
    have hmem := hreq e he
    have hne : e.field ≠ "opt" := by
      intro hh
      rw [hh] at hmem
      revert hmem
      decide
    simp [hne]

/-- C6 counterexample: transitivity of `is_type_assignable` fails on object
schemas.  With `O1 = object{}`, `O2 = object{f: string}` where `f` is
optional, and `O3 = object{f: string}` where `f` is required, `O1 → O2` and
`O2 → O3` are assignable but `O1 → O3` is not (the integer→number edge is not
involved at all). -/
theorem assignable_not_transitive :
    is_type_assignable (obj [] []) (obj [("f", prim "string")] []) = true ∧
    is_type_assignable (obj [("f", prim "string")] [])
      (obj [("f", prim "string")] ["f"]) = true ∧
    is_type_assignable (obj [] []) (obj [("f", prim "string")] ["f"]) = false := by
  refine ⟨?_, ?_, ?_⟩ <;>
    simp [is_type_assignable, check_object_assignability, check_object_field,
      obj, prim, List.lookup]

/-- Schemas that never reach the object branch of the assignability engine:
no `object` tag at the top or under any chain of array items. -/
def objectFree : Jschema → Bool
  | .mk t _ _ none => t ≠ some "object"
  | .mk t _ _ (some s) => (t ≠ some "object") && objectFree s
termination_by s => sizeOf s
decreasing_by simp_wf <;> omega

/-- An assignable pair has equal tags or is the integer→number widening. -/
theorem ita_tag_eq_or_widen {x y : Jschema} (h : is_type_assignable x y = true) :
    x.type = y.type ∨ (x.type = some "integer" ∧ y.type = some "number") := by
  cases x with
  | mk xt xp xr xi =>
    cases y with
    | mk yt yp yr yi =>
      simp only [is_type_assignable] at h
      by_cases he : xt = yt
      · left
        simpa [Jschema.type] using he
      · rw [if_neg he] at h
        by_cases hw : xt = some "integer" ∧ yt = some "number"
        · right
          simpa [Jschema.type] using hw
        · rw [if_neg hw] at h
          cases h

/-- Two schemas without a type tag are mutually assignable. -/
theorem ita_of_none_none {x y : Jschema} (hx : x.type = none) (hy : y.type = none) :
    is_type_assignable x y = true := by
  cases x with
  | mk xt xp xr xi =>
    cases y with
    | mk yt yp yr yi =>
      simp only [Jschema.type] at hx hy
      subst hx
      subst hy
      simp [is_type_assignable]

/-- If the target has no tag, an assignable source has no tag either. -/
theorem ita_none_right {x y : Jschema} (h : is_type_assignable x y = true)
    (hy : y.type = none) : x.type = none := by
  rcases ita_tag_eq_or_widen h with he | hw
  · rw [he, hy]
  · rw [hy] at hw
    cases hw.2

/-- If the source has no tag, an assignable target has no tag either. -/
theorem ita_none_left {x y : Jschema} (h : is_type_assignable x y = true)
    (hx : x.type = none) : y.type = none := by
  rcases ita_tag_eq_or_widen h with he | hw
  · rw [← he, hx]
  · rw [hx] at hw
    cases hw.1

/-- Transitivity of the assignability engine on object-free schemas, by
strong induction on the combined schema size. -/
theorem assignable_trans_aux (n : Nat) :
    ∀ s1 s2 s3 : Jschema, sizeOf s1 + sizeOf s2 + sizeOf s3 ≤ n →
    objectFree s1 = true → objectFree s2 = true → objectFree s3 = true →
    is_type_assignable s1 s2 = true → is_type_assignable s2 s3 = true →
    is_type_assignable s1 s3 = true := by
  induction n using Nat.strong_induction_on with
  | _ n ih =>
  intro s1 s2 s3 hsz h1 h2 h3 ha hb
  cases s1 with
  | mk t1 p1 r1 i1 =>
    cases s2 with
    | mk t2 p2 r2 i2 =>
      cases s3 with
      | mk t3 p3 r3 i3 =>
        simp only [is_type_assignable] at ha hb ⊢
        by_cases e12 : t1 = t2
        · by_cases e23 : t2 = t3
          · -- equal tags throughout
            rw [if_pos e12] at ha
            rw [if_pos e23] at hb
            rw [if_pos (e12.trans e23)]
            by_cases harr : t1 = some "array"
            · rw [if_pos harr] at ha ⊢
              rw [if_pos (e12 ▸ harr)] at hb
              cases i2 with
              | some b =>
                have hofb : objectFree b = true := by
                  rw [objectFree, Bool.and_eq_true] at h2
                  exact h2.2
                cases i1 with
                | some a =>
                  have hofa : objectFree a = true := by
                    rw [objectFree, Bool.and_eq_true] at h1
                    exact h1.2
                  simp only [assignable_items] at ha
                  cases i3 with
                  | some cc =>
                    have hofc : objectFree cc = true := by
                      rw [objectFree, Bool.and_eq_true] at h3
                      exact h3.2
                    simp only [assignable_items] at hb ⊢
                    have hs1 : sizeOf a < sizeOf (Jschema.mk t1 p1 r1 (some a)) := by
                      simp
                      omega
                    have hs2 : sizeOf b < sizeOf (Jschema.mk t2 p2 r2 (some b)) := by
                      simp
                      omega
                    have hs3 : sizeOf cc < sizeOf (Jschema.mk t3 p3 r3 (some cc)) := by
                      simp
                      omega
                    exact ih (sizeOf a + sizeOf b + sizeOf cc) (by omega)
                      a b cc (Nat.le_refl _) hofa hofb hofc ha hb
                  | none =>
                    simp only [assignable_items] at hb ⊢
                    have hbnone : b.type = none := of_decide_eq_true hb
                    exact decide_eq_true (ita_none_right ha hbnone)
                | none =>
                  simp only [assignable_items] at ha
                  have hbnone : b.type = none := of_decide_eq_true ha
                  cases i3 with
                  | some cc =>
                    simp only [assignable_items] at hb ⊢
                    exact decide_eq_true (ita_none_left hb hbnone)
                  | none =>
                    simp only [assignable_items]
              | none =>
                cases i1 with
                | some a =>
                  simp only [assignable_items] at ha
                  have hanone : a.type = none := of_decide_eq_true ha
                  cases i3 with
                  | some cc =>
                    simp only [assignable_items] at hb ⊢
                    have hcnone : cc.type = none := of_decide_eq_true hb
                    exact ita_of_none_none hanone hcnone
                  | none =>
                    simp only [assignable_items] at ha ⊢
                    exact decide_eq_true hanone
                | none =>
                  cases i3 with
                  | some cc =>
                    simp only [assignable_items] at hb ⊢
                    exact hb
                  | none =>
                    simp only [assignable_items]
            · -- not an array; the object branch is excluded by objectFree
              have hnobj : ¬ t1 = some "object" := by
                cases i1 with
                | none =>
                  rw [objectFree] at h1
                  exact of_decide_eq_true h1
                | some a =>
                  rw [objectFree, Bool.and_eq_true] at h1
                  exact of_decide_eq_true h1.1
              rw [if_neg harr, if_neg hnobj]
          · -- hb must be the widening edge
            rw [if_neg e23] at hb
            by_cases hw : t2 = some "integer" ∧ t3 = some "number"
            · have ht1 : t1 = some "integer" := e12.trans hw.1
              have hne13 : ¬ t1 = t3 := by
                rw [ht1, hw.2]
                simp
              rw [if_neg hne13, if_pos ⟨ht1, hw.2⟩]
            · rw [if_neg hw] at hb
              cases hb
        · -- ha must be the widening edge
          rw [if_neg e12] at ha
          by_cases hw : t1 = some "integer" ∧ t2 = some "number"
          · by_cases e23 : t2 = t3
            · have hne13 : ¬ t1 = t3 := by
                rw [hw.1, ← e23, hw.2]
                simp
              rw [if_neg hne13, if_pos ⟨hw.1, e23 ▸ hw.2⟩]
            · rw [if_neg e23] at hb
              by_cases hw2 : t2 = some "integer" ∧ t3 = some "number"
              · rw [hw.2] at hw2
                simp at hw2
              · rw [if_neg hw2] at hb
                cases hb
          · rw [if_neg hw] at ha
            cases ha

/-- Transitivity of the assignability engine on object-free schemas. -/
theorem assignable_trans_objectFree (s1 s2 s3 : Jschema)
    (h1 : objectFree s1 = true) (h2 : objectFree s2 = true)
    (h3 : objectFree s3 = true) (ha : is_type_assignable s1 s2 = true)
    (hb : is_type_assignable s2 s3 = true) :
    is_type_assignable s1 s3 = true :=
  assignable_trans_aux (sizeOf s1 + sizeOf s2 + sizeOf s3) s1 s2 s3
    (Nat.le_refl _) h1 h2 h3 ha hb

/-- C6 amended: `is_type_assignable` is transitive on object-free schemas
(primitives, `any`, and arrays thereof); transitivity fails in general for
object schemas when a field optional in the middle schema is required in the
final one (see the counterexample), and the widening edge is indeed not
reversible: `isAssignable(number, integer)` is false. -/
theorem assignable_trans_spec :
    (∀ s1 s2 s3 : Jschema, objectFree s1 = true → objectFree s2 = true →
      objectFree s3 = true → is_type_assignable s1 s2 = true →
      is_type_assignable s2 s3 = true → is_type_assignable s1 s3 = true) ∧
    is_type_assignable (prim "number") (prim "integer") = false :=
  ⟨fun s1 s2 s3 h1 h2 h3 ha hb => assignable_trans_objectFree s1 s2 s3 h1 h2 h3 ha hb,
    by simp [is_type_assignable, prim]⟩

/-- C6 witness: `array<integer> → array<number> → array<number>` composes to
the assignable `array<integer> → array<number>`. -/
theorem assignable_trans_spec_witness :
    objectFree (arr (prim "integer")) = true ∧
    objectFree (arr (prim "number")) = true ∧
    is_type_assignable (arr (prim "integer")) (arr (prim "number")) = true ∧
    is_type_assignable (arr (prim "number")) (arr (prim "number")) = true ∧
    is_type_assignable (arr (prim "integer")) (arr (prim "number")) = true := by
  have hof1 : objectFree (arr (prim "integer")) = true := by
    simp [objectFree, arr, prim]
  have hof2 : objectFree (arr (prim "number")) = true := by
    simp [objectFree, arr, prim]
  have hab : is_type_assignable (arr (prim "integer")) (arr (prim "number")) = true := by
    simp [is_type_assignable, assignable_items, arr, prim]
  have hbb : is_type_assignable (arr (prim "number")) (arr (prim "number")) = true := by
    simp [is_type_assignable, assignable_items, arr, prim]
  exact ⟨hof1, hof2, hab, hbb,
    assignable_trans_spec.1 _ _ _ hof1 hof2 hof2 hab hbb⟩

end AgentSkills
